import Mathlib

/-!
Verification of the chat-server core of `src/server/main.cpp`
(`ChatRoom`, `ChatSession` and its timer-based wake signal).

The embedding is shallow: users are identified by natural numbers
(standing for the `shared_ptr<Users>` identities of the source),
`std::set` membership is modelled by a duplicate-free list with
insert-if-absent and erase-by-filter, `std::deque` by a Lean list whose
head is the deque front, and the side effect of calling a member's
`deliver` by an explicit event list `(target, message)`.
-/

namespace MessengerApp

/-- `ChatRoom::max_recent_` in the source: the history capacity. -/
def max_recent : Nat := 10

/-- The buffer ceiling of `async_read_until(..., dynamic_buffer(read_message, 1024), "\n", ...)`. -/
def max_read : Nat := 1024

/-- Insert into a `std::set` modelled as a duplicate-free list:
no-op when the element is already present. -/
def setInsert (s : List Nat) (u : Nat) : List Nat :=
  if u ∈ s then s else s ++ [u]

/-- `std::set::erase`: remove the element if present, no-op otherwise. -/
def setErase (s : List Nat) (u : Nat) : List Nat :=
  s.filter (fun v => v ≠ u)

/-- State of `ChatRoom`: the member set `users_` (iteration order of the
`std::set` abstracted to list order) and the history deque
`recent_message_` (head = oldest). -/
structure ChatRoom where
  users : List Nat
  recent_message : List String
deriving DecidableEq

/-- The `while (recent_message_.size() > max_recent_) pop_front();` loop
of `ChatRoom::deliver`. -/
def trimHistory (h : List String) : List String :=
  if max_recent < h.length then trimHistory h.tail else h
termination_by h.length
decreasing_by
  cases h with
  | nil => simp [max_recent] at *
  | cons a t => simp

/-- `ChatRoom::join`: insert the user into `users_`, then replay every
stored history message to that user. The second component lists the
`deliver` calls the room makes, in order, as `(target, message)` pairs. -/
def ChatRoom.join (r : ChatRoom) (u : Nat) : ChatRoom × List (Nat × String) :=
  ({ r with users := setInsert r.users u },
   r.recent_message.map (fun m => (u, m)))

/-- `ChatRoom::leave`: erase the user from `users_`. -/
def ChatRoom.leave (r : ChatRoom) (u : Nat) : ChatRoom :=
  { r with users := setErase r.users u }

/-- `ChatRoom::deliver`: append the message to the history, trim the
history to capacity, then call `deliver` on every current member.
The second component lists those member `deliver` calls. -/
def ChatRoom.deliver (r : ChatRoom) (msg : String) : ChatRoom × List (Nat × String) :=
  ({ r with recent_message := trimHistory (r.recent_message ++ [msg]) },
   r.users.map (fun u => (u, msg)))

/-- Fold a sequence of `ChatRoom::deliver` calls, room state only. -/
def ChatRoom.runDeliver (r : ChatRoom) (msgs : List String) : ChatRoom :=
  msgs.foldl (fun r m => (r.deliver m).1) r

/-! ### Basic facts about the history buffer -/

theorem trimHistory_eq_drop (h : List String) :
    trimHistory h = h.drop (h.length - max_recent) := by
  induction h with
  | nil => rw [trimHistory]; simp
  | cons a t ih =>
    rw [trimHistory]
    by_cases hlen : max_recent < (a :: t).length
    · rw [if_pos hlen]
      simp only [List.tail_cons]
      rw [ih]
      have h2 : (a :: t).length - max_recent = (t.length - max_recent) + 1 := by
        simp only [List.length_cons] at hlen ⊢; omega
      rw [h2, List.drop_succ_cons]
    · rw [if_neg hlen]
      have h3 : (a :: t).length - max_recent = 0 := by
        simp only [List.length_cons] at hlen ⊢; omega
      rw [h3, List.drop_zero]

theorem trimHistory_length_le (h : List String) :
    (trimHistory h).length ≤ max_recent := by
  rw [trimHistory_eq_drop, List.length_drop]
  omega

/-- Closed form of the history after a run of `deliver` calls, for any
starting history already within capacity. -/
theorem runDeliver_recent (us : List Nat) (h0 : List String) (msgs : List String)
    (hcap : h0.length ≤ max_recent) :
    (ChatRoom.runDeliver ⟨us, h0⟩ msgs).recent_message
      = (h0 ++ msgs).drop ((h0 ++ msgs).length - max_recent) := by
  induction msgs generalizing h0 with
  | nil =>
    simp only [ChatRoom.runDeliver, List.foldl_nil, List.append_nil]
    have : h0.length - max_recent = 0 := by omega
    rw [this, List.drop_zero]
  | cons m ms ih =>
    simp only [ChatRoom.runDeliver, List.foldl_cons]
    have step : (ChatRoom.deliver ⟨us, h0⟩ m).1
        = ⟨us, trimHistory (h0 ++ [m])⟩ := rfl
    rw [step]
    have hcap' : (trimHistory (h0 ++ [m])).length ≤ max_recent :=
      trimHistory_length_le _
    have := ih (trimHistory (h0 ++ [m])) hcap'
    simp only [ChatRoom.runDeliver] at this
    rw [this, trimHistory_eq_drop]
    have hsplit : h0 ++ m :: ms = (h0 ++ [m]) ++ ms := by simp
    rw [hsplit]
    set l := h0 ++ [m] with hl
    set k := l.length - max_recent with hk
    have hkle : k ≤ l.length := by omega
    rw [← List.drop_append_of_le_length hkle, List.drop_drop]
    congr 1
    simp only [List.length_append, List.length_drop]
    omega

/-! ### ChatSession -/

/-- State of a `ChatSession`: the outbound deque `write_message_`
(head = front), whether `socket_` is open, the number of waits pending
on `timer_` (the wake signal; the writer is the only task that ever
waits, so this is 0 or 1 in any reachable state), and `output`, the
sequence of strings written to the transport so far. -/
structure ChatSession where
  write_message : List String
  socket_open : Bool
  waiters : Nat
  output : List String
deriving DecidableEq

/-- `ChatSession::cancel`: `timer_.cancel_one(ec)` cancels at most one
wait pending on the timer and reports how many it cancelled. -/
def ChatSession.cancel (s : ChatSession) : ChatSession × Nat :=
  ({ s with waiters := s.waiters - min s.waiters 1 }, min s.waiters 1)

/-- `ChatSession::deliver`: `write_message_.push_back(message); cancel();`. -/
def ChatSession.deliver (s : ChatSession) (m : String) : ChatSession :=
  (ChatSession.cancel { s with write_message := s.write_message ++ [m] }).1

/-- One iteration of the `ChatSession::writer` loop: while the socket is
open, a non-empty queue has its front written to the transport with a
terminating newline and popped; an empty queue suspends on the timer. -/
def ChatSession.writerStep (s : ChatSession) : ChatSession :=
  if s.socket_open then
    match s.write_message with
    | m :: rest => { s with output := s.output ++ [m ++ "\n"], write_message := rest }
    | [] => { s with waiters := s.waiters + 1 }
  else s

/-- Iterate the writer loop a given number of times. -/
def ChatSession.writerRun (s : ChatSession) : Nat → ChatSession
  | 0 => s
  | n + 1 => (s.writerStep).writerRun n

/-- Fold a sequence of `ChatSession::deliver` calls. -/
def ChatSession.runDeliver (s : ChatSession) (msgs : List String) : ChatSession :=
  msgs.foldl ChatSession.deliver s

/-! ### The system: one room plus every session, keyed by user identity -/

structure World where
  room : ChatRoom
  sessions : Nat → ChatSession

/-- Apply a list of `(target, message)` deliver events to the sessions:
each event invokes `ChatSession.deliver` on its target's session. -/
def applyEvents (sess : Nat → ChatSession) (evs : List (Nat × String)) :
    Nat → ChatSession :=
  evs.foldl (fun f e => fun v => if v = e.1 then (f v).deliver e.2 else f v) sess

/-- `ChatRoom::deliver` as it acts on the whole system. -/
def World.deliver (w : World) (msg : String) : World :=
  { room := (w.room.deliver msg).1,
    sessions := applyEvents w.sessions (w.room.deliver msg).2 }

/-- `ChatRoom::join` as it acts on the whole system. -/
def World.join (w : World) (u : Nat) : World :=
  { room := (w.room.join u).1,
    sessions := applyEvents w.sessions (w.room.join u).2 }

/-- The welcome message enqueued by `ChatSession::start`. -/
def welcomeMsg (name : String) : String :=
  "Welcome to the chat, " ++ name ++ "!"

/-- `ChatSession::start`: `room_.join(shared_from_this())`, then
`deliver("Welcome to the chat, " + username_ + "!")` on the session
itself (the spawning of the reader and writer tasks carries no state
change of its own). -/
def World.start (w : World) (u : Nat) (name : String) : World :=
  let w1 := w.join u
  { w1 with
    sessions := fun v =>
      if v = u then (w1.sessions v).deliver (welcomeMsg name) else w1.sessions v }

/-- The session-local part of `ChatSession::stop`: `socket_.close();
timer_.cancel();` (a full cancel wakes every pending wait). -/
def ChatSession.closeLocal (s : ChatSession) : ChatSession :=
  { s with socket_open := false, waiters := 0 }

/-- `ChatSession::stop`: `room_.leave(shared_from_this()); socket_.close();
timer_.cancel();`. -/
def World.stop (w : World) (u : Nat) : World :=
  { room := w.room.leave u,
    sessions := fun v => if v = u then (w.sessions v).closeLocal else w.sessions v }

/-- Fold a sequence of `World.deliver` calls. -/
def World.runDeliver (w : World) (msgs : List String) : World :=
  msgs.foldl World.deliver w

/-! ### Session and event lemmas -/

theorem ChatSession.deliver_write_message (s : ChatSession) (m : String) :
    (s.deliver m).write_message = s.write_message ++ [m] := rfl

theorem ChatSession.deliver_socket_open (s : ChatSession) (m : String) :
    (s.deliver m).socket_open = s.socket_open := rfl

theorem ChatSession.deliver_output (s : ChatSession) (m : String) :
    (s.deliver m).output = s.output := rfl

theorem ChatSession.runDeliver_write_message (s : ChatSession) (msgs : List String) :
    (s.runDeliver msgs).write_message = s.write_message ++ msgs := by
  induction msgs generalizing s with
  | nil => simp [ChatSession.runDeliver]
  | cons m ms ih =>
    simp only [ChatSession.runDeliver, List.foldl_cons] at *
    rw [ih, ChatSession.deliver_write_message, List.append_assoc]
    rfl

theorem ChatSession.runDeliver_socket_open (s : ChatSession) (msgs : List String) :
    (s.runDeliver msgs).socket_open = s.socket_open := by
  induction msgs generalizing s with
  | nil => rfl
  | cons m ms ih =>
    simp only [ChatSession.runDeliver, List.foldl_cons] at *
    rw [ih, ChatSession.deliver_socket_open]

theorem ChatSession.runDeliver_output (s : ChatSession) (msgs : List String) :
    (s.runDeliver msgs).output = s.output := by
  induction msgs generalizing s with
  | nil => rfl
  | cons m ms ih =>
    simp only [ChatSession.runDeliver, List.foldl_cons] at *
    rw [ih, ChatSession.deliver_output]

/-- Draining the writer with exactly as many iterations as there are
queued messages, while the socket is open, writes every queued message
(newline-terminated) to the transport in queue order. -/
theorem ChatSession.writerRun_drain (s : ChatSession) (hopen : s.socket_open = true) :
    (s.writerRun s.write_message.length).output
        = s.output ++ s.write_message.map (fun m => m ++ "\n")
      ∧ (s.writerRun s.write_message.length).write_message = [] := by
  obtain ⟨q, op, wa, out⟩ := s
  simp only at hopen
  subst hopen
  induction q generalizing out with
  | nil => simp [ChatSession.writerRun]
  | cons m rest ih =>
    simp only [List.length_cons, ChatSession.writerRun, ChatSession.writerStep,
      List.map_cons, if_true]
    have := ih (out ++ [m ++ "\n"])
    simp only [ChatSession.writerRun] at this
    refine ⟨?_, this.2⟩
    rw [this.1]
    simp

/-- Events all aimed at one target `u`: session `u` folds the messages
through its `deliver`; every other session is untouched. -/
theorem applyEvents_single_target (sess : Nat → ChatSession) (u : Nat)
    (msgs : List String) (v : Nat) :
    applyEvents sess (msgs.map (fun m => (u, m))) v
      = if v = u then (sess u).runDeliver msgs else sess v := by
  induction msgs generalizing sess with
  | nil =>
    simp only [List.map_nil, applyEvents, List.foldl_nil, ChatSession.runDeliver]
    by_cases hv : v = u <;> simp [hv]
  | cons m ms ih =>
    simp only [List.map_cons, applyEvents, List.foldl_cons] at *
    rw [ih]
    by_cases hv : v = u <;> simp [hv, ChatSession.runDeliver]

/-- Fan-out events `(u, msg)` for each member `u` of a duplicate-free
list: each member's session receives `msg` by one `deliver` call;
non-members are untouched. -/
theorem applyEvents_fanout (sess : Nat → ChatSession) (users : List Nat)
    (msg : String) (hnd : users.Nodup) (v : Nat) :
    applyEvents sess (users.map (fun u => (u, msg))) v
      = if v ∈ users then (sess v).deliver msg else sess v := by
  induction users generalizing sess with
  | nil => simp [applyEvents]
  | cons u us ih =>
    have hnd' : us.Nodup := hnd.of_cons
    have hu : u ∉ us := by
      simp only [List.nodup_cons] at hnd
      exact hnd.1
    simp only [List.map_cons, applyEvents, List.foldl_cons] at *
    rw [ih _ hnd']
    by_cases hv : v = u
    · subst hv
      simp [hu]
    · by_cases hmem : v ∈ us <;> simp [hv, hmem]

theorem World.runDeliver_room (w : World) (msgs : List String) :
    (w.runDeliver msgs).room = w.room.runDeliver msgs := by
  induction msgs generalizing w with
  | nil => rfl
  | cons m ms ih =>
    simp only [World.runDeliver, ChatRoom.runDeliver, List.foldl_cons] at *
    rw [ih]
    rfl

/-! ### The reader: one `async_read_until` call and its handling -/

/-- The two failure modes of the bounded `async_read_until`: the buffer
ceiling is hit before a delimiter is found (`error::not_found`), or the
transport fails / reaches EOF first. Both are thrown as exceptions. -/
inductive ReadErr where
  | bufferFull
  | transportFailed
deriving DecidableEq

/-- Outcome of `async_read_until(socket_, dynamic_buffer(read_message, 1024), "\n", ...)`
on a pending byte stream `input`: on success, `n` bytes are available,
counted up to and including the delimiter. -/
inductive ReadResult where
  | ok (taken : List Char)
  | err (e : ReadErr)
deriving DecidableEq

/-- One bounded delimited read from the stream `input`: scan at most
`max_read` bytes for the first newline; on success return the bytes up
to and including it (the `n` returned by `async_read_until`); a full
buffer without a delimiter is `error::not_found`; a stream that ends
first is a transport error/EOF. -/
def readUntil (input : List Char) : ReadResult :=
  match (input.take max_read).findIdx? (fun c => c = '\n') with
  | some i => .ok (input.take (i + 1))
  | none => if max_read ≤ input.length then .err .bufferFull else .err .transportFailed

/-- What the reader loop body does with one read outcome: on success it
calls `room_.deliver(read_message.substr(0, n))` with the first `n`
bytes as read (the source performs no further processing before the
call); any thrown error lands in a catch block that calls `stop()`. -/
inductive ReaderAction where
  | forwardToRoom (msg : List Char)
  | stopSession
deriving DecidableEq

def readerHandle : ReadResult → ReaderAction
  | .ok taken => .forwardToRoom taken
  | .err _ => .stopSession

theorem count_pair_map (users : List Nat) (msg : String) (v : Nat) :
    (users.map (fun u => (u, msg))).count (v, msg) = users.count v := by
  induction users with
  | nil => rfl
  | cons u us ih =>
    simp only [List.map_cons, List.count_cons, ih]
    congr 1
    by_cases hv : u = v
    · subst hv
      simp
    · simp [hv]

/-! ### Claims -/

/-- C1: after any sequence of `N` `ChatRoom::deliver` calls from an empty
history, the history holds exactly the last `min(N,10)` delivered
messages in arrival order (oldest evicted first), and `|history| ≤ 10`
after every operation of the sequence. -/
theorem C1_history_bound (us : List Nat) (msgs : List String) :
    (ChatRoom.runDeliver ⟨us, []⟩ msgs).recent_message
        = msgs.drop (msgs.length - max_recent)
      ∧ (ChatRoom.runDeliver ⟨us, []⟩ msgs).recent_message.length
        = min msgs.length max_recent
      ∧ ∀ p q : List String, msgs = p ++ q →
          (ChatRoom.runDeliver ⟨us, []⟩ p).recent_message.length ≤ max_recent := by
  have h := runDeliver_recent us [] msgs (by simp [max_recent])
  simp only [List.nil_append] at h
  refine ⟨h, ?_, ?_⟩
  · rw [h, List.length_drop]
    omega
  · intro p q hpq
    have hp := runDeliver_recent us [] p (by simp [max_recent])
    simp only [List.nil_append] at hp
    rw [hp, List.length_drop]
    omega

/-- Witness for C1, the spec's own example: eleven messages leave the
last ten, oldest first evicted; the prefix bound holds concretely. -/
theorem C1_history_bound_witness :
    (ChatRoom.runDeliver ⟨[], []⟩
        ["m1","m2","m3","m4","m5","m6","m7","m8","m9","m10","m11"]).recent_message
      = ["m2","m3","m4","m5","m6","m7","m8","m9","m10","m11"]
    ∧ (ChatRoom.runDeliver ⟨[], []⟩ ["m1","m2"]).recent_message.length ≤ max_recent := by
  constructor
  · rw [(C1_history_bound []
      ["m1","m2","m3","m4","m5","m6","m7","m8","m9","m10","m11"]).1]
    rfl
  · exact (C1_history_bound [] (["m1","m2"] ++ ["m3"])).2.2 ["m1","m2"] ["m3"] rfl

/-- C2: a `ChatRoom::deliver(msg)` call makes every member of the room at
call time (the sender included, when it is a member) receive `msg` by
exactly one `ChatSession::deliver` call — one event per member, and one
append of `msg` to that member's outbound queue — while a non-member's
session is untouched. -/
theorem C2_fanout_inclusion (w : World) (msg : String)
    (hnd : w.room.users.Nodup) (v : Nat) :
    ((w.room.deliver msg).2.count (v, msg) = if v ∈ w.room.users then 1 else 0)
      ∧ (v ∈ w.room.users →
          ((w.deliver msg).sessions v).write_message
            = (w.sessions v).write_message ++ [msg])
      ∧ (v ∉ w.room.users → (w.deliver msg).sessions v = w.sessions v) := by
  have hev : (w.room.deliver msg).2 = w.room.users.map (fun u => (u, msg)) := rfl
  have hsess : (w.deliver msg).sessions v
      = if v ∈ w.room.users then (w.sessions v).deliver msg else w.sessions v :=
    applyEvents_fanout w.sessions w.room.users msg hnd v
  refine ⟨?_, ?_, ?_⟩
  · rw [hev, count_pair_map]
    by_cases hv : v ∈ w.room.users
    · rw [if_pos hv, List.count_eq_one_of_mem hnd hv]
    · rw [if_neg hv, List.count_eq_zero.mpr hv]
  · intro hv
    rw [hsess, if_pos hv, ChatSession.deliver_write_message]
  · intro hv
    rw [hsess, if_neg hv]

/-- Witness for C2: a two-member room; member 1 receives the broadcast
once, non-member 7 is untouched. -/
theorem C2_fanout_inclusion_witness :
    ((ChatRoom.deliver ⟨[1, 2], []⟩ "hello").2.count (1, "hello") = 1)
      ∧ ((World.deliver ⟨⟨[1, 2], []⟩, fun _ => ⟨[], true, 0, []⟩⟩ "hello").sessions 1).write_message
        = ((fun _ => (⟨[], true, 0, []⟩ : ChatSession)) 1).write_message ++ ["hello"]
      ∧ (World.deliver ⟨⟨[1, 2], []⟩, fun _ => ⟨[], true, 0, []⟩⟩ "hello").sessions 7
        = (fun _ => (⟨[], true, 0, []⟩ : ChatSession)) 7 := by
  have h := C2_fanout_inclusion ⟨⟨[1, 2], []⟩, fun _ => ⟨[], true, 0, []⟩⟩ "hello"
    (by decide) 1
  have h7 := C2_fanout_inclusion ⟨⟨[1, 2], []⟩, fun _ => ⟨[], true, 0, []⟩⟩ "hello"
    (by decide) 7
  exact ⟨h.1.trans (by decide), h.2.1 (by decide), h7.2.2 (by decide)⟩

/-- C3: refuted on the code — `async_read_until` returns `n` counted up
to and including the delimiter, and the reader forwards
`read_message.substr(0, n)` unchanged, so on the wire bytes "hi\n" the
content handed to `ChatRoom::deliver` is "hi\n", terminator included,
not the terminator-stripped "hi" the claim states. -/
theorem C3_terminator_kept :
    readerHandle (readUntil ("hi\n".toList))
        = ReaderAction.forwardToRoom ("hi\n".toList)
      ∧ "hi\n".toList ≠ "hi".toList := by
  constructor
  · rfl
  · decide

/-- C4: a user joining a room whose history holds the `k ≤ 10` messages
delivered so far receives exactly those messages, in order, appended to
its own outbound queue by the join call, and no other session is
touched by the join. -/
theorem C4_replay_on_join (w0 : World) (msgs : List String) (u : Nat)
    (hk : msgs.length ≤ max_recent) (h0 : w0.room.recent_message = []) :
    (((w0.runDeliver msgs).join u).sessions u).write_message
        = ((w0.runDeliver msgs).sessions u).write_message ++ msgs
      ∧ ∀ v, v ≠ u →
          ((w0.runDeliver msgs).join u).sessions v
            = (w0.runDeliver msgs).sessions v := by
  have hroomeq : w0.room = (⟨w0.room.users, []⟩ : ChatRoom) := by
    rw [← h0]
  have hist : (w0.runDeliver msgs).room.recent_message = msgs := by
    rw [World.runDeliver_room, hroomeq]
    have h1 := runDeliver_recent w0.room.users [] msgs (by simp [max_recent])
    simp only [List.nil_append] at h1
    rw [h1]
    have h2 : msgs.length - max_recent = 0 := by omega
    rw [h2, List.drop_zero]
  have hjoin : ∀ v, ((w0.runDeliver msgs).join u).sessions v
      = if v = u
        then ((w0.runDeliver msgs).sessions u).runDeliver msgs
        else (w0.runDeliver msgs).sessions v := by
    intro v
    show applyEvents (w0.runDeliver msgs).sessions
      ((w0.runDeliver msgs).room.join u).2 v = _
    have hev : ((w0.runDeliver msgs).room.join u).2
        = (w0.runDeliver msgs).room.recent_message.map (fun m => (u, m)) := rfl
    rw [hev, hist]
    exact applyEvents_single_target (w0.runDeliver msgs).sessions u msgs v
  constructor
  · rw [hjoin u, if_pos rfl, ChatSession.runDeliver_write_message]
  · intro v hv
    rw [hjoin v, if_neg hv]

/-- Witness for C4: after "a", "b" are delivered into an empty room,
user 5 joins and has exactly "a", "b" appended to its queue. -/
theorem C4_replay_on_join_witness :
    (((World.runDeliver ⟨⟨[], []⟩, fun _ => ⟨[], true, 0, []⟩⟩ ["a", "b"]).join 5).sessions 5).write_message
      = ((World.runDeliver ⟨⟨[], []⟩, fun _ => ⟨[], true, 0, []⟩⟩ ["a", "b"]).sessions 5).write_message
        ++ ["a", "b"] :=
  (C4_replay_on_join ⟨⟨[], []⟩, fun _ => ⟨[], true, 0, []⟩⟩ ["a", "b"] 5
    (by decide) rfl).1

/-- C5: `ChatSession::deliver` appends to the outbound queue and wakes
the writer (one `cancel_one` on the timer), as a total function of the
caller; draining the writer while the socket stays open writes the
queued messages to the transport newline-terminated, in exactly the
order they were enqueued. -/
theorem C5_session_fifo (s : ChatSession) (msgs : List String)
    (hopen : s.socket_open = true) :
    (s.runDeliver msgs).write_message = s.write_message ++ msgs
      ∧ ((s.runDeliver msgs).writerRun (s.write_message.length + msgs.length)).output
        = s.output ++ (s.write_message ++ msgs).map (fun m => m ++ "\n")
      ∧ ((s.runDeliver msgs).writerRun (s.write_message.length + msgs.length)).write_message = []
      ∧ ∀ m, (s.deliver m).write_message = s.write_message ++ [m]
          ∧ (s.deliver m).output = s.output
          ∧ (s.deliver m).waiters = s.waiters - min s.waiters 1 := by
  have hq := ChatSession.runDeliver_write_message s msgs
  have hopen' : (s.runDeliver msgs).socket_open = true := by
    rw [ChatSession.runDeliver_socket_open, hopen]
  have hfuel : s.write_message.length + msgs.length
      = (s.runDeliver msgs).write_message.length := by
    rw [hq, List.length_append]
  have hdrain := ChatSession.writerRun_drain (s.runDeliver msgs) hopen'
  refine ⟨hq, ?_, ?_, ?_⟩
  · rw [hfuel, hdrain.1, ChatSession.runDeliver_output, hq]
  · rw [hfuel, hdrain.2]
  · intro m
    exact ⟨rfl, rfl, rfl⟩

/-- Witness for C5: a session with "a" already queued receives "b", "c";
three writer iterations emit "a\n", "b\n", "c\n" in that order. -/
theorem C5_session_fifo_witness :
    ((ChatSession.runDeliver ⟨["a"], true, 1, []⟩ ["b", "c"]).writerRun 3).output
      = ([] : List String) ++ (["a"] ++ ["b", "c"]).map (fun m => m ++ "\n") :=
  (C5_session_fifo ⟨["a"], true, 1, []⟩ ["b", "c"] rfl).2.1

/-- C6: `ChatSession::start` joins the room and then enqueues the
welcome message into this session's own outbound queue only: the room
history is untouched by start (the welcome goes through the local
`deliver`, not `ChatRoom::deliver`), the member set gains the session,
the session's queue gains the history replay followed by the welcome,
and every other session is unchanged. -/
theorem C6_start_frame (w : World) (u : Nat) (name : String) :
    (w.start u name).room.recent_message = w.room.recent_message
      ∧ (w.start u name).room.users = setInsert w.room.users u
      ∧ ((w.start u name).sessions u).write_message
        = (w.sessions u).write_message ++ w.room.recent_message ++ [welcomeMsg name]
      ∧ ∀ v, v ≠ u → (w.start u name).sessions v = w.sessions v := by
  have hjoin : ∀ v, (w.join u).sessions v
      = if v = u
        then (w.sessions u).runDeliver w.room.recent_message
        else w.sessions v :=
    fun v => applyEvents_single_target w.sessions u w.room.recent_message v
  have hstart : (w.start u name).sessions
      = fun v => if v = u
          then ((w.join u).sessions v).deliver (welcomeMsg name)
          else (w.join u).sessions v := rfl
  refine ⟨rfl, rfl, ?_, ?_⟩
  · rw [congrFun hstart u, if_pos rfl, ChatSession.deliver_write_message,
      hjoin u, if_pos rfl, ChatSession.runDeliver_write_message, List.append_assoc]
  · intro v hv
    rw [congrFun hstart v, if_neg hv, hjoin v, if_neg hv]

/-- Witness for C6: user 1 starts in a room with member 2 and history
["x"]; its queue becomes ["x", welcome], session 2 is untouched, and
the history stays ["x"]. -/
theorem C6_start_frame_witness :
    (World.start ⟨⟨[2], ["x"]⟩, fun _ => ⟨[], true, 0, []⟩⟩ 1 "bob").room.recent_message = ["x"]
      ∧ ((World.start ⟨⟨[2], ["x"]⟩, fun _ => ⟨[], true, 0, []⟩⟩ 1 "bob").sessions 1).write_message
        = ([] : List String) ++ ["x"] ++ [welcomeMsg "bob"]
      ∧ (World.start ⟨⟨[2], ["x"]⟩, fun _ => ⟨[], true, 0, []⟩⟩ 1 "bob").sessions 2
        = (⟨[], true, 0, []⟩ : ChatSession) := by
  have h := C6_start_frame ⟨⟨[2], ["x"]⟩, fun _ => ⟨[], true, 0, []⟩⟩ 1 "bob"
  exact ⟨h.1, h.2.2.1, h.2.2.2 2 (by decide)⟩

theorem setErase_idem (s : List Nat) (u : Nat) :
    setErase (setErase s u) u = setErase s u := by
  unfold setErase
  rw [List.filter_eq_self]
  intro a ha
  simp only [List.mem_filter] at ha
  exact ha.2

/-- C7: `ChatSession::stop` is idempotent — a second stop reproduces the
state of the first exactly (the session removed from the room, the
socket closed, every timer wait cancelled) as a total function, and
`ChatRoom::leave` on a non-member leaves the room unchanged. -/
theorem C7_stop_idempotent (w : World) (u : Nat) :
    (w.stop u).stop u = w.stop u
      ∧ u ∉ (w.stop u).room.users
      ∧ ((w.stop u).sessions u).socket_open = false
      ∧ (u ∉ w.room.users → w.room.leave u = w.room) := by
  refine ⟨?_, ?_, ?_, ?_⟩
  · show World.mk _ _ = World.mk _ _
    congr 1
    · show (w.room.leave u).leave u = w.room.leave u
      unfold ChatRoom.leave
      rw [setErase_idem]
    · funext v
      by_cases hv : v = u <;>
        simp [World.stop, ChatSession.closeLocal, hv]
  · show u ∉ setErase w.room.users u
    simp [setErase, List.mem_filter]
  · simp [World.stop, ChatSession.closeLocal]
  · intro hu
    unfold ChatRoom.leave
    have h1 : setErase w.room.users u = w.room.users := by
      unfold setErase
      rw [List.filter_eq_self]
      intro a ha
      simp only [decide_eq_true_eq]
      intro h
      exact hu (h ▸ ha)
    rw [h1]

/-- Witness for C7: stopping user 1 twice in a concrete two-member
world equals stopping it once, and leaving with non-member 9 is a
no-op. -/
theorem C7_stop_idempotent_witness :
    ((World.stop ⟨⟨[1, 2], []⟩, fun _ => ⟨[], true, 0, []⟩⟩ 1).stop 1
        = World.stop ⟨⟨[1, 2], []⟩, fun _ => ⟨[], true, 0, []⟩⟩ 1)
      ∧ ChatRoom.leave ⟨[1, 2], []⟩ 9 = ⟨[1, 2], []⟩ := by
  constructor
  · exact (C7_stop_idempotent ⟨⟨[1, 2], []⟩, fun _ => ⟨[], true, 0, []⟩⟩ 1).1
  · exact (C7_stop_idempotent ⟨⟨[1, 2], []⟩, fun _ => ⟨[], true, 0, []⟩⟩ 9).2.2.2
      (by decide)

/-- C8: a read that would exceed the 1024-byte buffer ceiling without
meeting a newline fails as `error::not_found`, a transport-level error
thrown like any other read failure, and the reader's handling of it is
identical to its handling of a generic transport failure: the session
is stopped, with no protocol-level rejection of the message. -/
theorem C8_overflow_is_transport_error (input : List Char)
    (hno : ∀ c ∈ input.take max_read, c ≠ '\n')
    (hlen : max_read ≤ input.length) :
    readUntil input = .err .bufferFull
      ∧ readerHandle (readUntil input) = .stopSession
      ∧ readerHandle (.err .bufferFull) = readerHandle (.err .transportFailed) := by
  have hfind : (input.take max_read).findIdx? (fun c => c = '\n') = none := by
    rw [List.findIdx?_eq_none_iff]
    intro x hx
    simpa using hno x hx
  have hru : readUntil input = .err .bufferFull := by
    unfold readUntil
    rw [hfind]
    simp [hlen]
  refine ⟨hru, ?_, rfl⟩
  rw [hru]
  rfl

/-- Witness for C8: 1024 bytes of 'a' with no newline overflow the
buffer and the read reports `error::not_found`. -/
theorem C8_overflow_is_transport_error_witness :
    readUntil (List.replicate max_read 'a') = .err .bufferFull := by
  refine (C8_overflow_is_transport_error (List.replicate max_read 'a') ?_ ?_).1
  · intro c hc
    have hmem : c ∈ List.replicate max_read 'a' := List.take_subset _ _ hc
    rw [List.eq_of_mem_replicate hmem]
    decide
  · simp

/-- C9: `ChatSession::cancel` (`timer_.cancel_one`) wakes exactly one
pending wait when one exists and reports the number it woke; with no
pending wait it reports zero and the session state — queue included —
is unchanged; and once the single possible waiter is woken, cancelling
again is a no-op (idempotence under the one-waiter invariant of the
wake signal). -/
theorem C9_cancel_semantics (s : ChatSession) :
    (1 ≤ s.waiters → s.cancel = ({ s with waiters := s.waiters - 1 }, 1))
      ∧ (s.waiters = 0 → s.cancel = (s, 0))
      ∧ ((s.cancel.1).write_message = s.write_message
          ∧ (s.cancel.1).socket_open = s.socket_open
          ∧ (s.cancel.1).output = s.output)
      ∧ (s.waiters ≤ 1 → (s.cancel.1).cancel = (s.cancel.1, 0)) := by
  obtain ⟨q, op, wa, out⟩ := s
  refine ⟨?_, ?_, ⟨rfl, rfl, rfl⟩, ?_⟩
  · intro h
    have hwa : 1 ≤ wa := h
    simp only [ChatSession.cancel]
    have h1 : min wa 1 = 1 := by omega
    rw [h1]
  · intro h
    have hwa : wa = 0 := h
    subst hwa
    rfl
  · intro h
    have hwa : wa ≤ 1 := h
    simp only [ChatSession.cancel]
    have h0 : wa - min wa 1 = 0 := by omega
    rw [h0]
    rfl

/-- Witness for C9: with one pending wait, cancel wakes it and reports
one; cancelling again is a no-op reporting zero. -/
theorem C9_cancel_semantics_witness :
    ChatSession.cancel ⟨[], true, 1, []⟩ = ((⟨[], true, 0, []⟩ : ChatSession), 1)
      ∧ (ChatSession.cancel ⟨[], true, 1, []⟩).1.cancel
        = ((ChatSession.cancel ⟨[], true, 1, []⟩).1, 0) := by
  constructor
  · exact (C9_cancel_semantics ⟨[], true, 1, []⟩).1 (by decide)
  · exact (C9_cancel_semantics ⟨[], true, 1, []⟩).2.2.2 (by decide)

/-- C10: joining a room again with a user already in the member set
leaves the member set unchanged (`std::set::insert` is a no-op on a
duplicate) but replays the entire current history to that user a second
time through its `deliver`; no other session is touched. -/
theorem C10_rejoin_replays (w : World) (u : Nat) (hu : u ∈ w.room.users) :
    (w.join u).room.users = w.room.users
      ∧ ((w.join u).sessions u).write_message
        = (w.sessions u).write_message ++ w.room.recent_message
      ∧ ∀ v, v ≠ u → (w.join u).sessions v = w.sessions v := by
  have hjoin : ∀ v, (w.join u).sessions v
      = if v = u
        then (w.sessions u).runDeliver w.room.recent_message
        else w.sessions v :=
    fun v => applyEvents_single_target w.sessions u w.room.recent_message v
  refine ⟨?_, ?_, ?_⟩
  · show setInsert w.room.users u = w.room.users
    unfold setInsert
    rw [if_pos hu]
  · rw [hjoin u, if_pos rfl, ChatSession.runDeliver_write_message]
  · intro v hv
    rw [hjoin v, if_neg hv]

/-- Witness for C10: member 1 of a room with history ["x"] rejoins; the
member set stays [1] and its queue gains ["x"] again. -/
theorem C10_rejoin_replays_witness :
    (World.join ⟨⟨[1], ["x"]⟩, fun _ => ⟨["x"], true, 0, []⟩⟩ 1).room.users = [1]
      ∧ ((World.join ⟨⟨[1], ["x"]⟩, fun _ => ⟨["x"], true, 0, []⟩⟩ 1).sessions 1).write_message
        = ["x"] ++ ["x"] := by
  have h := C10_rejoin_replays ⟨⟨[1], ["x"]⟩, fun _ => ⟨["x"], true, 0, []⟩⟩ 1 (by decide)
  exact ⟨h.1, h.2.1⟩

end MessengerApp
